import Mathlib

/-!
# Verification of the slide-scraper keyframe extraction engine

Shallow embedding of `src/main.py` (functions `create_speaker_mask` and
`extract_frames`) and proofs of the specification's claims about them.

Modelling conventions:
* A video frame is modelled at the point after `cv2.cvtColor(..., COLOR_BGR2GRAY)`:
  a single-channel intensity grid of natural-number pixel values with explicit
  height and width (`Frame`).  Colour-to-grayscale conversion itself carries no
  claim, so the pipeline consumes grayscale frames directly.
* Floating-point values (ratios, thresholds, timestamps from
  `cap.get(cv2.CAP_PROP_POS_MSEC)`) are modelled as rationals `ℚ`.
* Python's `int(x)` truncates toward zero: `pyInt`.
* NumPy basic slicing `a[i:j]` resolves negative endpoints by adding the axis
  length and clamps into `[0, n]`: `npIndex`.  This matters because the source
  writes `mask[0:h, -w:] = 0` and with `w = 0` the slice `-0:` is `0:`, i.e.
  the full axis.
* `np.sum` over `uint8` promotes to an unbounded accumulator (`uint64`), so
  pixel sums are plain `ℕ` sums; `cv2.absdiff` on `uint8` is `|a - b|`;
  `cv2.multiply` by a 0/1 mask never saturates.
* The saved record `(frame_path, timestamp)` is modelled as
  `(index, timestamp)`: the path `f"frame_{len(saved_frames):04d}.jpg"` is a
  pure function of `len(saved_frames)` at save time, which we keep as the
  numeric index.
-/

/-- A single-channel (grayscale intensity) frame: a `h × w` grid of pixel
values, `px i j` being the value at row `i`, column `j`. -/
structure Frame where
  h : ℕ
  w : ℕ
  px : ℕ → ℕ → ℕ

/-- The binary speaker mask: a `h × w` grid of cells, each `0` (excluded)
or `1` (visible), as built by `create_speaker_mask`. -/
structure Mask where
  h : ℕ
  w : ℕ
  cell : ℕ → ℕ → ℕ

/-- The four values of the `position` argument of `create_speaker_mask`. -/
inductive Corner where
  | topLeft
  | topRight
  | bottomLeft
  | bottomRight
deriving DecidableEq

/-- Python `int()` applied to a real (here rational) value: truncation
toward zero. -/
def pyInt (q : ℚ) : ℤ :=
  if 0 ≤ q then ⌊q⌋ else ⌈q⌉

/-- NumPy basic-slice endpoint resolution for an axis of length `n`:
a negative endpoint has `n` added, then the result is clamped into
`[0, n]`. -/
def npIndex (n : ℕ) (i : ℤ) : ℕ :=
  (max 0 (min (if i < 0 then i + n else i) (n : ℤ))).toNat

/-- The zero rectangle assigned by `create_speaker_mask`, as a pair of
half-open row and column ranges `([r0, r1), [c0, c1))`, obtained from the
slice assignments of `src/main.py` lines 48–55 under NumPy slice
semantics (`a:b` with omitted `a` = 0 and omitted `b` = axis length). -/
def speakerRect (h w : ℕ) (sh sw : ℤ) : Corner → (ℕ × ℕ) × (ℕ × ℕ)
  | Corner.topLeft => ((0, npIndex h sh), (0, npIndex w sw))
  | Corner.topRight => ((0, npIndex h sh), (npIndex w (-sw), w))
  | Corner.bottomLeft => ((npIndex h (-sh), h), (0, npIndex w sw))
  | Corner.bottomRight => ((npIndex h (-sh), h), (npIndex w (-sw), w))

/-- `create_speaker_mask(height, width, speaker_width_ratio,
speaker_height_ratio, position)` from `src/main.py` lines 32–57:
starts from `np.ones((height, width))`, computes
`speaker_height = int(height * speaker_height_ratio)` and
`speaker_width = int(width * speaker_width_ratio)`, and zeroes the slice
of the named corner. -/
def create_speaker_mask (height width : ℕ) (speaker_width_ratio speaker_height_ratio : ℚ)
    (position : Corner) : Mask :=
  let speaker_height : ℤ := pyInt ((height : ℚ) * speaker_height_ratio)
  let speaker_width : ℤ := pyInt ((width : ℚ) * speaker_width_ratio)
  let rect := speakerRect height width speaker_height speaker_width position
  { h := height
    w := width
    cell := fun i j =>
      if rect.1.1 ≤ i ∧ i < rect.1.2 ∧ rect.2.1 ≤ j ∧ j < rect.2.2 then 0 else 1 }

/-- `np.sum(mask)`: the sum of all mask cells. -/
def maskSum (m : Mask) : ℕ :=
  ∑ i ∈ Finset.range m.h, ∑ j ∈ Finset.range m.w, m.cell i j

/-- The number of mask cells equal to `1` (the visible pixels). -/
def onesCount (m : Mask) : ℕ :=
  ((Finset.range m.h ×ˢ Finset.range m.w).filter fun p => m.cell p.1 p.2 = 1).card

/-- The number of mask cells equal to `0` (the excluded rectangle). -/
def zeroCount (m : Mask) : ℕ :=
  ((Finset.range m.h ×ˢ Finset.range m.w).filter fun p => m.cell p.1 p.2 = 0).card

/-- `cv2.multiply(gray, mask)`: pointwise product of a frame with the 0/1
mask (no saturation can occur since the mask is binary). -/
def mulMask (f : Frame) (m : Mask) : Frame :=
  { h := f.h, w := f.w, px := fun i j => f.px i j * m.cell i j }

/-- `np.sum(cv2.absdiff(a, b))` over a `h × w` grid: the sum of absolute
pixel differences. -/
def sumAbsDiff (a b : Frame) (h w : ℕ) : ℕ :=
  ∑ i ∈ Finset.range h, ∑ j ∈ Finset.range w,
    (if a.px i j ≤ b.px i j then b.px i j - a.px i j else a.px i j - b.px i j)

/-- `mean_diff = np.sum(diff) / np.sum(mask)` (`src/main.py` line 106) where
`diff = cv2.absdiff(masked_cur, masked_prev)`: the arguments `a`, `b` are the
already-masked intensity frames.  Division is rational; a zero denominator
(every mask cell 0) yields Lean's total-division value. -/
def meanDiff (a b : Frame) (m : Mask) : ℚ :=
  (sumAbsDiff a b m.h m.w : ℚ) / (maskSum m : ℚ)

/-- The loop state of `extract_frames`: `prev_frame` (the previous grayscale
frame, `None` before the first loop iteration), `last_saved_time`, and the
accumulated `saved_frames` list of `(index, timestamp)` records. -/
structure EFState where
  prev : Option Frame
  last_saved_time : ℚ
  saved : List (ℕ × ℚ)

/-- The body of the `while` loop of `extract_frames` (`src/main.py` lines
97–123) for one frame `(frame, timestamp)`: convert to grayscale (already
done in the model), mask, and — when a previous frame exists — compute
`mean_diff` and save the frame iff
`mean_diff > frame_threshold and (timestamp - last_saved_time) >= min_time_between_frames`,
updating `last_saved_time` on save; finally set `prev_frame = gray`. -/
def processFrame (mask : Mask) (frame_threshold min_time_between_frames : ℚ)
    (st : EFState) (x : Frame × ℚ) : EFState :=
  let gray := x.1
  let masked_gray := mulMask gray mask
  match st.prev with
  | none => { st with prev := some gray }
  | some p =>
      let mean_diff := meanDiff masked_gray (mulMask p mask) mask
      let timestamp := x.2
      if frame_threshold < mean_diff ∧
          min_time_between_frames ≤ timestamp - st.last_saved_time then
        { prev := some gray
          last_saved_time := timestamp
          saved := st.saved ++ [(st.saved.length, timestamp)] }
      else
        { st with prev := some gray }

/-- `extract_frames` (`src/main.py` lines 60–126) over a finite source of
`(grayscale frame, POS_MSEC timestamp)` pairs.  Reads the first frame for
dimensions (returning `[]` if the source is empty), builds the mask once,
resets the capture to the start (`cap.set(cv2.CAP_PROP_POS_FRAMES, 0)`),
then folds the loop body over every source frame in order, starting from
`prev_frame = None` and `last_saved_time = -min_interval * 1000`. -/
def extract_frames (source : List (Frame × ℚ))
    (speaker_width_ratio speaker_height_ratio : ℚ) (position : Corner)
    (frame_threshold : ℚ) (min_interval : ℚ) : List (ℕ × ℚ) :=
  match source with
  | [] => []
  | (first_frame, _) :: _ =>
      let mask := create_speaker_mask first_frame.h first_frame.w
        speaker_width_ratio speaker_height_ratio position
      let min_time_between_frames := min_interval * 1000
      (source.foldl (processFrame mask frame_threshold min_time_between_frames)
        { prev := none, last_saved_time := -min_time_between_frames, saved := [] }).saved

/-- The mask `extract_frames` builds for a given source: from the first
frame's dimensions, or a degenerate `0 × 0` all-ones mask when the source
is empty (in which case no frame is ever processed). -/
def maskOf (source : List (Frame × ℚ)) (speaker_width_ratio speaker_height_ratio : ℚ)
    (position : Corner) : Mask :=
  match source with
  | [] => { h := 0, w := 0, cell := fun _ _ => 1 }
  | (first_frame, _) :: _ =>
      create_speaker_mask first_frame.h first_frame.w
        speaker_width_ratio speaker_height_ratio position

/-- A zero frame, used as the out-of-range default when indexing a source. -/
def defFrame : Frame := { h := 0, w := 0, px := fun _ _ => 0 }

/-- A concrete all-zero `2 × 2` grayscale frame, for concrete runs. -/
def frame00 : Frame := { h := 2, w := 2, px := fun _ _ => 0 }

/-- A concrete constant-100 `2 × 2` grayscale frame, for concrete runs. -/
def frame100 : Frame := { h := 2, w := 2, px := fun _ _ => 100 }

/-- The change score the loop computes at source position `k ≥ 1` (0-based):
the `meanDiff` of the masked frame `k` against the masked frame `k - 1`.
Position 0 has no previous frame and no score. -/
def scoreAt (source : List (Frame × ℚ)) (m : Mask) (k : ℕ) : ℚ :=
  meanDiff (mulMask (source.getD k (defFrame, 0)).1 m)
    (mulMask (source.getD (k - 1) (defFrame, 0)).1 m) m

/-- The change score at position `j` (0-based) of the loop run over
`p :: L` once the previous frame is `p`: for `j = 0` the comparison is
against `p`, afterwards against the preceding element of `L`.  Used to
state properties of the tail of a run. -/
def chainScore (m : Mask) (p : Frame) (L : List (Frame × ℚ)) (j : ℕ) : ℚ :=
  meanDiff (mulMask (L.getD j (defFrame, 0)).1 m)
    (mulMask (if j = 0 then p else (L.getD (j - 1) (defFrame, 0)).1) m) m

/-- The sequence of frames `extract_frames` reads from the capture, in read
order: line 75 reads the first frame (for dimensions), line 91 seeks the
capture back to the start, and the loop of lines 92–95 then reads every
frame once, in order, to exhaustion.  So the read sequence is the first
frame followed by the whole source. -/
def framesRead (source : List (Frame × ℚ)) : List (Frame × ℚ) :=
  match source with
  | [] => []
  | x :: _ => x :: source

/-- Modelled from the spec's words for comparison with the code: the zero
rectangle of size `sh × sw` "anchored at the named corner" of a `h × w`
grid — rows within `sh` of the top or bottom edge and columns within `sw`
of the left or right edge, as the corner dictates. -/
def cornerRect (h w sh sw : ℕ) (pos : Corner) (i j : ℕ) : Prop :=
  match pos with
  | Corner.topLeft => i < sh ∧ j < sw
  | Corner.topRight => i < sh ∧ w - sw ≤ j
  | Corner.bottomLeft => h - sh ≤ i ∧ j < sw
  | Corner.bottomRight => h - sh ≤ i ∧ w - sw ≤ j

/-! ## Helper lemmas on slice arithmetic and masks -/

lemma pyInt_of_nonneg {q : ℚ} (hq : 0 ≤ q) : pyInt q = ⌊q⌋ := by
  simp [pyInt, hq]

lemma pyInt_natCast (n : ℕ) : pyInt (n : ℚ) = n := by
  rw [pyInt_of_nonneg (by positivity)]
  exact Int.floor_natCast n

lemma pyInt_mul_ratio_nonneg (n : ℕ) {r : ℚ} (hr : 0 ≤ r) :
    0 ≤ pyInt ((n : ℚ) * r) := by
  rw [pyInt_of_nonneg (by positivity)]
  exact Int.floor_nonneg.mpr (by positivity)

lemma pyInt_mul_ratio_le (n : ℕ) {r : ℚ} (hr0 : 0 ≤ r) (hr1 : r ≤ 1) :
    pyInt ((n : ℚ) * r) ≤ n := by
  rw [pyInt_of_nonneg (by positivity)]
  calc ⌊(n : ℚ) * r⌋ ≤ ⌊(n : ℚ)⌋ := by
        apply Int.floor_le_floor
        calc (n : ℚ) * r ≤ (n : ℚ) * 1 := by
              apply mul_le_mul_of_nonneg_left hr1 (by positivity)
          _ = n := mul_one _
    _ = n := Int.floor_natCast n

lemma npIndex_of_bounds (n : ℕ) (k : ℤ) (h0 : 0 ≤ k) (hn : k ≤ n) :
    npIndex n k = k.toNat := by
  unfold npIndex
  have : ¬ k < 0 := not_lt.mpr h0
  rw [if_neg this, min_eq_left hn, max_eq_right h0]

lemma npIndex_neg_of_bounds (n : ℕ) (k : ℤ) (h0 : 0 < k) (hn : k ≤ n) :
    npIndex n (-k) = n - k.toNat := by
  unfold npIndex
  have hneg : -k < 0 := by omega
  rw [if_pos hneg]
  have h1 : -k + n = ((n - k.toNat : ℕ) : ℤ) := by omega
  rw [h1, min_eq_left (by omega), max_eq_right (by omega), Int.toNat_natCast]

lemma npIndex_le (n : ℕ) (k : ℤ) : npIndex n k ≤ n := by
  unfold npIndex
  omega

/-- Every cell of a constructed speaker mask is `0` or `1`. -/
lemma cell_zero_or_one (h w : ℕ) (wr hr : ℚ) (pos : Corner) (i j : ℕ) :
    (create_speaker_mask h w wr hr pos).cell i j = 0 ∨
    (create_speaker_mask h w wr hr pos).cell i j = 1 := by
  unfold create_speaker_mask
  dsimp only
  split
  · exact Or.inl rfl
  · exact Or.inr rfl

lemma create_h (h w : ℕ) (wr hr : ℚ) (pos : Corner) :
    (create_speaker_mask h w wr hr pos).h = h := rfl

lemma create_w (h w : ℕ) (wr hr : ℚ) (pos : Corner) :
    (create_speaker_mask h w wr hr pos).w = w := rfl

/-- For a binary mask, `np.sum(mask)` is the number of cells equal to `1`. -/
lemma maskSum_eq_onesCount (m : Mask)
    (hbin : ∀ i j, m.cell i j = 0 ∨ m.cell i j = 1) :
    maskSum m = onesCount m := by
  unfold maskSum onesCount
  rw [Finset.card_filter, ← Finset.sum_product']
  apply Finset.sum_congr rfl
  intro p _
  rcases hbin p.1 p.2 with h0 | h1
  · simp [h0]
  · simp [h1]

lemma sumAbsDiff_self (a : Frame) (h w : ℕ) : sumAbsDiff a a h w = 0 := by
  unfold sumAbsDiff
  simp

/-! ## C6 -/

/-- C6: when the video source yields zero frames, `extract_frames` returns
the empty list as a normal result (line 77 of `src/main.py`): the slide
sequence is empty, no error is raised. -/
theorem extract_frames_empty_source (wr hr : ℚ) (pos : Corner) (thr mi : ℚ) :
    extract_frames [] wr hr pos thr mi = [] := rfl

/-! ## C10 -/

/-- C10: with `speaker_width_ratio = 1` and `speaker_height_ratio = 1` the
zero rectangle covers the whole frame at every corner: every mask cell is
`0`, so `np.sum(mask)` — the divisor of `mean_diff` at line 106 — is `0`,
and nothing in the code guards that division: the score expression is
`np.sum(diff) / 0` (the embedding's total rational division stands in for
NumPy's warning-producing division by zero). -/
theorem full_mask_score_divides_by_zero (h w : ℕ) (pos : Corner) (a b : Frame) :
    (∀ i j, i < h → j < w → (create_speaker_mask h w 1 1 pos).cell i j = 0) ∧
    maskSum (create_speaker_mask h w 1 1 pos) = 0 ∧
    meanDiff a b (create_speaker_mask h w 1 1 pos) =
      (sumAbsDiff a b h w : ℚ) / 0 := by
  have hsh : pyInt ((h : ℚ) * 1) = (h : ℤ) := by rw [mul_one, pyInt_natCast]
  have hsw : pyInt ((w : ℚ) * 1) = (w : ℤ) := by rw [mul_one, pyInt_natCast]
  have hrow : npIndex h (h : ℤ) = h := by
    rw [npIndex_of_bounds h h (by omega) (by omega), Int.toNat_natCast]
  have hcol : npIndex w (w : ℤ) = w := by
    rw [npIndex_of_bounds w w (by omega) (by omega), Int.toNat_natCast]
  have hrow0 : npIndex h (-(h : ℤ)) = 0 := by unfold npIndex; omega
  have hcol0 : npIndex w (-(w : ℤ)) = 0 := by unfold npIndex; omega
  have hcell : ∀ i j, i < h → j < w → (create_speaker_mask h w 1 1 pos).cell i j = 0 := by
    intro i j hi hj
    unfold create_speaker_mask
    dsimp only
    rw [hsh, hsw]
    cases pos <;>
      simp [speakerRect, hrow, hcol, hrow0, hcol0, hi, hj, Nat.zero_le]
  refine ⟨hcell, ?_, ?_⟩
  · unfold maskSum
    rw [create_h]
    apply Finset.sum_eq_zero
    intro i hi
    apply Finset.sum_eq_zero
    intro j hj
    rw [create_w] at hj
    exact hcell i j (Finset.mem_range.mp hi) (Finset.mem_range.mp hj)
  · unfold meanDiff
    rw [create_h, create_w]
    congr 1
    unfold maskSum
    rw [create_h]
    have : ∀ i ∈ Finset.range h, ∑ j ∈ Finset.range (create_speaker_mask h w 1 1 pos).w,
        (create_speaker_mask h w 1 1 pos).cell i j = 0 := by
      intro i hi
      apply Finset.sum_eq_zero
      intro j hj
      rw [create_w] at hj
      exact hcell i j (Finset.mem_range.mp hi) (Finset.mem_range.mp hj)
    rw [Finset.sum_congr rfl this]
    simp

/-- C10 witness: the divisor of the score is `0` on a concrete `2 × 2`
full-frame mask. -/
theorem full_mask_score_divides_by_zero_witness :
    maskSum (create_speaker_mask 2 2 1 1 Corner.topLeft) = 0 :=
  (full_mask_score_divides_by_zero 2 2 Corner.topLeft defFrame defFrame).2.1

/-! ## C3 -/

/-- C3: for every comparison the loop performs, the change score equals the
sum of absolute differences between the current and previous masked
intensity frames divided by the number of mask cells equal to `1` — the
mean absolute difference per visible pixel.  (`np.sum(mask)` at line 106 is
that count because the mask is binary.) -/
theorem score_eq_sumAbsDiff_div_onesCount (h w : ℕ) (wr hr : ℚ) (pos : Corner)
    (cur prev : Frame) :
    meanDiff (mulMask cur (create_speaker_mask h w wr hr pos))
        (mulMask prev (create_speaker_mask h w wr hr pos))
        (create_speaker_mask h w wr hr pos) =
      (sumAbsDiff (mulMask cur (create_speaker_mask h w wr hr pos))
          (mulMask prev (create_speaker_mask h w wr hr pos)) h w : ℚ) /
        (onesCount (create_speaker_mask h w wr hr pos) : ℚ) := by
  unfold meanDiff
  rw [create_h, create_w,
    maskSum_eq_onesCount _ (cell_zero_or_one h w wr hr pos)]

/-! ## C5 -/

/-- C5 (counterexample): with `speaker_width_ratio = 3/2 ∉ [0, 1]` nothing
fails: `create_speaker_mask` silently clamps the oversized rectangle to the
frame, `extract_frames` scans both frames of a two-frame source and even
selects one — no `InvalidGeometry` error exists, and no failure happens
before frames are scanned. -/
theorem invalid_ratio_scans_and_selects :
    extract_frames [(frame00, 0), (frame100, 1000)] (3/2) (1/2)
        Corner.topLeft 1 2 = [(0, 1000)] ∧
    ¬ ((3/2 : ℚ) ≤ 1) := by
  constructor
  · norm_num [extract_frames, processFrame, meanDiff, mulMask, sumAbsDiff, maskSum,
      create_speaker_mask, speakerRect, npIndex, pyInt, frame00, frame100,
      Finset.sum_range_succ]
  · norm_num

/-- C5 (amended): mask construction never fails on any input: for every
dimension pair, every rational ratio (in range or not) and every corner, it
totally produces a binary mask, and the zero rectangle's row and column
ranges are clamped to the frame bounds by slice semantics. -/
theorem create_speaker_mask_never_fails (h w : ℕ) (wr hr : ℚ) (pos : Corner) :
    (∀ i j, (create_speaker_mask h w wr hr pos).cell i j = 0 ∨
      (create_speaker_mask h w wr hr pos).cell i j = 1) ∧
    (speakerRect h w (pyInt ((h : ℚ) * hr)) (pyInt ((w : ℚ) * wr)) pos).1.2 ≤ h ∧
    (speakerRect h w (pyInt ((h : ℚ) * hr)) (pyInt ((w : ℚ) * wr)) pos).2.2 ≤ w := by
  refine ⟨fun i j => cell_zero_or_one h w wr hr pos i j, ?_, ?_⟩ <;>
    cases pos <;> simp [speakerRect, npIndex_le]

/-! ## C9 -/

/-- C9 (counterexample): on a one-frame source the capture is read twice —
line 75 reads the first frame for dimensions, line 91 seeks back to the
start, and the loop reads it again — so the read sequence has length 2,
not the source length 1 demanded by "every frame is read exactly once". -/
theorem one_frame_source_read_twice :
    (framesRead [(frame00, 0)]).length = 2 ∧
    ([(frame00, 0)] : List (Frame × ℚ)).length = 1 := ⟨rfl, rfl⟩

/-- The saved timestamps of a fold of the loop body are a sublist of the
already-saved timestamps followed by the incoming frames' timestamps. -/
lemma foldl_saved_snd_sublist (m : Mask) (thr mi : ℚ) :
    ∀ (L : List (Frame × ℚ)) (st : EFState),
      ((L.foldl (processFrame m thr mi) st).saved.map Prod.snd).Sublist
        (st.saved.map Prod.snd ++ L.map Prod.snd) := by
  intro L
  induction L with
  | nil => intro st; simp
  | cons x L ih =>
      intro st
      rw [List.foldl_cons]
      apply (ih (processFrame m thr mi st x)).trans
      have hstep : (processFrame m thr mi st x).saved = st.saved ∨
          (processFrame m thr mi st x).saved =
            st.saved ++ [(st.saved.length, x.2)] := by
        unfold processFrame
        cases hp : st.prev with
        | none => exact Or.inl rfl
        | some p =>
            dsimp only
            split
            · exact Or.inr rfl
            · exact Or.inl rfl
      rcases hstep with hs | hs <;> rw [hs, List.map_cons]
      · exact List.Sublist.append_left (List.sublist_cons_self _ _) _
      · rw [List.map_append, List.append_assoc]
        simp

/-- C9 (amended): `extract_frames` rewinds exactly once: it reads the first
frame to establish dimensions, seeks back to the start, and then reads and
processes every source frame exactly once in source order — so the read
sequence is the first frame prepended to the source, and the selected
timestamps form a sublist of the source timestamps (output follows source
order, nothing is reordered). -/
theorem framesRead_rewind_once_and_order (src : List (Frame × ℚ))
    (wr hr : ℚ) (pos : Corner) (thr mi : ℚ) :
    framesRead src = src.take 1 ++ src ∧
    ((extract_frames src wr hr pos thr mi).map Prod.snd).Sublist
      (src.map Prod.snd) := by
  constructor
  · cases src <;> rfl
  · cases src with
    | nil => simp [extract_frames]
    | cons x L =>
        have := foldl_saved_snd_sublist
          (create_speaker_mask x.1.h x.1.w wr hr pos) thr (mi * 1000)
          (x :: L)
          { prev := none, last_saved_time := -(mi * 1000), saved := [] }
        simpa [extract_frames] using this

/-! ## C1 -/

/-- C1: for a frame processed after the first (a previous frame exists),
the loop saves the frame iff its change score exceeds `frame_threshold`
and the frame's timestamp minus `last_saved_time` is at least
`min_time_between_frames`; and whenever it saves, `last_saved_time`
becomes the current timestamp (lines 112–121 of `src/main.py`). -/
theorem processFrame_selects_iff (m : Mask) (thr mi : ℚ) (st : EFState) (p : Frame)
    (hp : st.prev = some p) (f : Frame) (ts : ℚ) :
    ((processFrame m thr mi st (f, ts)).saved =
        st.saved ++ [(st.saved.length, ts)] ↔
      (thr < meanDiff (mulMask f m) (mulMask p m) m ∧
        mi ≤ ts - st.last_saved_time)) ∧
    ((thr < meanDiff (mulMask f m) (mulMask p m) m ∧
        mi ≤ ts - st.last_saved_time) →
      (processFrame m thr mi st (f, ts)).last_saved_time = ts) := by
  rcases st with ⟨pr, last, saved⟩
  dsimp only at hp
  subst hp
  unfold processFrame
  dsimp only
  refine ⟨⟨?_, ?_⟩, ?_⟩
  · intro hsel
    by_contra hc
    rw [if_neg hc] at hsel
    dsimp only at hsel
    simp at hsel
  · intro hc
    rw [if_pos hc]
  · intro hc
    rw [if_pos hc]

/-- C1 witness: a concrete selecting step on `2 × 2` frames. -/
theorem processFrame_selects_iff_witness :
    (⟨some frame00, 0, []⟩ : EFState).prev = some frame00 ∧
    (((processFrame (create_speaker_mask 2 2 (1/2) (1/2) Corner.topLeft) 1 2000
        ⟨some frame00, 0, []⟩ (frame100, 5000)).saved = [(0, 5000)] ↔
      (1 < meanDiff (mulMask frame100 (create_speaker_mask 2 2 (1/2) (1/2) Corner.topLeft))
          (mulMask frame00 (create_speaker_mask 2 2 (1/2) (1/2) Corner.topLeft))
          (create_speaker_mask 2 2 (1/2) (1/2) Corner.topLeft) ∧
        (2000 : ℚ) ≤ 5000 - 0)) ∧
    ((1 < meanDiff (mulMask frame100 (create_speaker_mask 2 2 (1/2) (1/2) Corner.topLeft))
          (mulMask frame00 (create_speaker_mask 2 2 (1/2) (1/2) Corner.topLeft))
          (create_speaker_mask 2 2 (1/2) (1/2) Corner.topLeft) ∧
        (2000 : ℚ) ≤ 5000 - 0) →
      (processFrame (create_speaker_mask 2 2 (1/2) (1/2) Corner.topLeft) 1 2000
        ⟨some frame00, 0, []⟩ (frame100, 5000)).last_saved_time = 5000)) :=
  ⟨rfl, processFrame_selects_iff
    (create_speaker_mask 2 2 (1/2) (1/2) Corner.topLeft) 1 2000
    ⟨some frame00, 0, []⟩ frame00 rfl frame100 5000⟩

/-! ## C8 -/

lemma meanDiff_self (a : Frame) (m : Mask) : meanDiff a a m = 0 := by
  unfold meanDiff
  rw [sumAbsDiff_self]
  simp

/-- Folding the loop body over frames that are all equal to `f`, starting
from a previous frame that is absent or equal to `f`, never saves anything
when the threshold is positive. -/
lemma foldl_const_frames_saved (m : Mask) (thr mi : ℚ) (hthr : 0 < thr) (f : Frame) :
    ∀ (L : List (Frame × ℚ)) (st : EFState),
      (∀ x ∈ L, x.1 = f) →
      (st.prev = none ∨ st.prev = some f) →
      (L.foldl (processFrame m thr mi) st).saved = st.saved := by
  intro L
  induction L with
  | nil => intro st _ _; rfl
  | cons x L ih =>
      intro st hL hprev
      have hx : x.1 = f := hL x (List.mem_cons_self x L)
      have hL' : ∀ y ∈ L, y.1 = f := fun y hy => hL y (List.mem_cons_of_mem x hy)
      rw [List.foldl_cons]
      rcases hprev with hn | hs
      · have hstep : processFrame m thr mi st x = { st with prev := some x.1 } := by
          unfold processFrame
          rw [hn]
        rw [hstep, ih _ hL' (Or.inr (by rw [hx]))]
      · have hcond : ¬ (thr < meanDiff (mulMask x.1 m) (mulMask f m) m ∧
            mi ≤ x.2 - st.last_saved_time) := by
          rw [hx, meanDiff_self]
          rintro ⟨h1, -⟩
          exact absurd (h1.trans hthr) (lt_irrefl _)
        have hstep : processFrame m thr mi st x = { st with prev := some x.1 } := by
          unfold processFrame
          rw [hs]
          dsimp only
          rw [if_neg hcond]
        rw [hstep, ih _ hL' (Or.inr (by rw [hx]))]

/-- C8: on a source of identical frames, every comparison's score is `0`
and — for any positive threshold — no slide is ever selected. -/
theorem identical_frames_select_nothing (f : Frame) (tss : List ℚ) (wr hr : ℚ)
    (pos : Corner) (thr mi : ℚ) (hthr : 0 < thr) :
    extract_frames (tss.map fun t => (f, t)) wr hr pos thr mi = [] ∧
    ∀ k, 1 ≤ k → k < tss.length →
      scoreAt (tss.map fun t => (f, t)) (maskOf (tss.map fun t => (f, t)) wr hr pos) k = 0 := by
  constructor
  · cases htss : tss with
    | nil => rfl
    | cons t ts' =>
        unfold extract_frames
        dsimp only [List.map_cons]
        apply foldl_const_frames_saved _ thr (mi * 1000) hthr f
        · intro x hx
          rcases List.mem_cons.mp hx with h | h
          · rw [h]
          · obtain ⟨t', -, ht'⟩ := List.mem_map.mp h
            rw [← ht']
        · exact Or.inl rfl
  · intro k hk1 hklen
    have hget : ∀ j, j < tss.length →
        ((tss.map fun t => (f, t)).getD j (defFrame, 0)).1 = f := by
      intro j hj
      rw [List.getD_eq_getElem _ _ (by simpa using hj)]
      simp
    unfold scoreAt
    rw [hget k hklen, hget (k - 1) (by omega), meanDiff_self]

/-- C8 witness: a concrete two-identical-frame source with threshold `1`
selects nothing. -/
theorem identical_frames_select_nothing_witness :
    (0 : ℚ) < 1 ∧
    extract_frames (([0, 1000] : List ℚ).map fun t => (frame00, t)) (1/2) (1/2)
      Corner.topLeft 1 2 = [] :=
  ⟨by norm_num,
    (identical_frames_select_nothing frame00 [0, 1000] (1/2) (1/2)
      Corner.topLeft 1 2 (by norm_num)).1⟩

/-! ## C2 -/

/-- One step of the loop either leaves `last_saved_time` and `saved`
unchanged (only updating `prev_frame`), or — when a previous frame exists
and the selection condition holds — appends one record and sets
`last_saved_time` to the current timestamp. -/
lemma processFrame_cases (m : Mask) (thr mi : ℚ) (st : EFState) (x : Frame × ℚ) :
    processFrame m thr mi st x = { st with prev := some x.1 } ∨
    (∃ p, st.prev = some p ∧
      (thr < meanDiff (mulMask x.1 m) (mulMask p m) m ∧
        mi ≤ x.2 - st.last_saved_time) ∧
      processFrame m thr mi st x =
        { prev := some x.1, last_saved_time := x.2,
          saved := st.saved ++ [(st.saved.length, x.2)] }) := by
  unfold processFrame
  cases hp : st.prev with
  | none => exact Or.inl rfl
  | some p =>
      dsimp only
      split
      · next hc => exact Or.inr ⟨p, rfl, hc, rfl⟩
      · exact Or.inl rfl

/-- Fold invariant for the debounce: consecutive saved timestamps are at
least `mi` apart, the last saved timestamp (if any) equals
`last_saved_time`, and at most one record is saved per frame. -/
lemma foldl_debounce (m : Mask) (thr mi : ℚ) :
    ∀ (L : List (Frame × ℚ)) (st : EFState),
      st.saved.Chain' (fun a b => mi ≤ b.2 - a.2) →
      (∀ a ∈ st.saved.getLast?, a.2 = st.last_saved_time) →
      ((L.foldl (processFrame m thr mi) st).saved.Chain'
          (fun a b => mi ≤ b.2 - a.2) ∧
        (∀ a ∈ (L.foldl (processFrame m thr mi) st).saved.getLast?,
          a.2 = (L.foldl (processFrame m thr mi) st).last_saved_time) ∧
        (L.foldl (processFrame m thr mi) st).saved.length ≤
          st.saved.length + L.length) := by
  intro L
  induction L with
  | nil => intro st h1 h2; exact ⟨h1, h2, by simp⟩
  | cons x L ih =>
      intro st h1 h2
      rw [List.foldl_cons]
      rcases processFrame_cases m thr mi st x with hc | ⟨p, hp, hcond, hc⟩
      · rw [hc]
        have h3 := ih { st with prev := some x.1 } h1 h2
        refine ⟨h3.1, h3.2.1, h3.2.2.trans ?_⟩
        show st.saved.length + L.length ≤ st.saved.length + (x :: L).length
        simp
      · rw [hc]
        have hlast : (st.saved ++ [(st.saved.length, x.2)]).getLast? =
            some (st.saved.length, x.2) := by simp
        have hchain : (st.saved ++ [(st.saved.length, x.2)]).Chain'
            (fun a b => mi ≤ b.2 - a.2) := by
          rw [List.chain'_append]
          refine ⟨h1, List.chain'_singleton _, ?_⟩
          intro a ha b hb
          simp only [List.head?_cons, Option.mem_some_iff] at hb
          subst hb
          have := h2 a ha
          dsimp only
          rw [this]
          exact hcond.2
        have hlastprop : ∀ a ∈ (st.saved ++ [(st.saved.length, x.2)]).getLast?,
            a.2 = (x.2 : ℚ) := by
          intro a ha
          rw [hlast] at ha
          simp only [Option.mem_some_iff] at ha
          rw [← ha]
        have h3 := ih ⟨some x.1, x.2, st.saved ++ [(st.saved.length, x.2)]⟩
          hchain hlastprop
        refine ⟨h3.1, h3.2.1, ?_⟩
        have h4 := h3.2.2
        simp only [List.length_append, List.length_cons, List.length_nil,
          List.length_singleton] at h4 ⊢
        omega

/-- C2: over any source (in particular one with non-decreasing reported
timestamps), the number of selected slides never exceeds the number of
frames scanned, and consecutive selected records' timestamps differ by at
least `min_interval * 1000` milliseconds (the debounce invariant). -/
theorem slide_count_and_debounce (src : List (Frame × ℚ)) (wr hr : ℚ) (pos : Corner)
    (thr mi : ℚ) (hmono : (src.map Prod.snd).Chain' (· ≤ ·)) :
    (extract_frames src wr hr pos thr mi).length ≤ src.length ∧
    (extract_frames src wr hr pos thr mi).Chain'
      (fun a b => mi * 1000 ≤ b.2 - a.2) := by
  cases src with
  | nil => exact ⟨by simp [extract_frames], by simp [extract_frames]⟩
  | cons x L =>
      obtain ⟨f0, t0⟩ := x
      unfold extract_frames
      have h := foldl_debounce (create_speaker_mask f0.h f0.w wr hr pos) thr
        (mi * 1000) ((f0, t0) :: L)
        { prev := none, last_saved_time := -(mi * 1000), saved := [] }
        List.chain'_nil (by simp)
      exact ⟨by simpa using h.2.2, h.1⟩

/-- C2 witness: the invariant on a concrete two-frame monotone source. -/
theorem slide_count_and_debounce_witness :
    ((([(frame00, 0), (frame100, 1000)] : List (Frame × ℚ)).map Prod.snd).Chain'
      (· ≤ ·)) ∧
    ((extract_frames [(frame00, 0), (frame100, 1000)] (1/2) (1/2)
        Corner.topLeft 1 2).length ≤ 2 ∧
      (extract_frames [(frame00, 0), (frame100, 1000)] (1/2) (1/2)
        Corner.topLeft 1 2).Chain' (fun a b => (2 : ℚ) * 1000 ≤ b.2 - a.2)) :=
  ⟨by norm_num,
    slide_count_and_debounce [(frame00, 0), (frame100, 1000)] (1/2) (1/2)
      Corner.topLeft 1 2 (by norm_num)⟩

/-! ## C7 -/

/-- The saved list only grows along the fold: whatever is saved at the
start is a prefix of the final saved list. -/
lemma foldl_saved_grows (m : Mask) (thr mi : ℚ) :
    ∀ (L : List (Frame × ℚ)) (st : EFState),
      ∃ t, (L.foldl (processFrame m thr mi) st).saved = st.saved ++ t := by
  intro L
  induction L with
  | nil => intro st; exact ⟨[], by simp⟩
  | cons x L ih =>
      intro st
      rw [List.foldl_cons]
      obtain ⟨t, ht⟩ := ih (processFrame m thr mi st x)
      rcases processFrame_cases m thr mi st x with hc | ⟨p, hp, hcond, hc⟩
      · exact ⟨t, by rw [ht, hc]⟩
      · refine ⟨(st.saved.length, x.2) :: t, ?_⟩
        rw [ht, hc]
        simp

lemma chainScore_cons (m : Mask) (p : Frame) (x : Frame × ℚ)
    (L : List (Frame × ℚ)) (j : ℕ) :
    chainScore m p (x :: L) (j + 1) = chainScore m x.1 L j := by
  unfold chainScore
  cases j with
  | zero => simp
  | succ j' => simp [List.getD_cons_succ]

/-- Running the loop from a state with no selection yet (`saved = []`,
`last_saved_time` still the initial `-mi`): if position `k` is the first
whose score exceeds the threshold and its timestamp is non-negative, the
frame at position `k` is selected, and selected first. -/
lemma first_qualifying_from_state (m : Mask) (thr mi : ℚ) :
    ∀ (L : List (Frame × ℚ)) (p : Frame) (k : ℕ) (hk : k < L.length),
      0 ≤ (L.getD k (defFrame, 0)).2 →
      thr < chainScore m p L k →
      (∀ j, j < k → chainScore m p L j ≤ thr) →
      ∃ t, (L.foldl (processFrame m thr mi) ⟨some p, -mi, []⟩).saved =
        (0, (L.getD k (defFrame, 0)).2) :: t := by
  intro L
  induction L with
  | nil => intro p k hk; simp at hk
  | cons x L ih =>
      intro p k hk hts hsc hfirst
      cases k with
      | zero =>
          have hscore : thr < meanDiff (mulMask x.1 m) (mulMask p m) m := by
            unfold chainScore at hsc
            simpa using hsc
          have hts0 : (0 : ℚ) ≤ x.2 := by simpa using hts
          have hcond : thr < meanDiff (mulMask x.1 m) (mulMask p m) m ∧
              mi ≤ x.2 - (⟨some p, -mi, []⟩ : EFState).last_saved_time :=
            ⟨hscore, by dsimp only; linarith⟩
          have hstep : processFrame m thr mi ⟨some p, -mi, []⟩ x =
              ⟨some x.1, x.2, [(0, x.2)]⟩ := by
            unfold processFrame
            dsimp only
            rw [if_pos hcond]
            rfl
          rw [List.foldl_cons, hstep]
          obtain ⟨t, ht⟩ := foldl_saved_grows m thr mi L ⟨some x.1, x.2, [(0, x.2)]⟩
          refine ⟨t, ?_⟩
          rw [ht]
          simp
      | succ k' =>
          have h0 : chainScore m p (x :: L) 0 ≤ thr := hfirst 0 (Nat.succ_pos k')
          have hscore0 : meanDiff (mulMask x.1 m) (mulMask p m) m ≤ thr := by
            unfold chainScore at h0
            simpa using h0
          have hnc : ¬ (thr < meanDiff (mulMask x.1 m) (mulMask p m) m ∧
              mi ≤ x.2 - (⟨some p, -mi, []⟩ : EFState).last_saved_time) := by
            rintro ⟨h1, -⟩
            exact absurd h1 (not_lt.mpr hscore0)
          have hstep : processFrame m thr mi ⟨some p, -mi, []⟩ x =
              ⟨some x.1, -mi, []⟩ := by
            unfold processFrame
            dsimp only
            rw [if_neg hnc]
          rw [List.foldl_cons, hstep]
          have hk' : k' < L.length := by simpa using hk
          obtain ⟨t, ht⟩ := ih x.1 k' hk'
            (by simpa [List.getD_cons_succ] using hts)
            (by rw [← chainScore_cons m p x L k']; exact hsc)
            (by intro j hj
                rw [← chainScore_cons m p x L j]
                exact hfirst (j + 1) (by omega))
          refine ⟨t, ?_⟩
          rw [ht]
          simp [List.getD_cons_succ]

/-- C7: because `last_saved_time` starts at `-min_interval * 1000`, the
first frame of the run whose change score exceeds the threshold is
selected (and selected first), whatever its non-negative absolute
timestamp is — the time-gap test `timestamp - last_saved_time >=
min_time_between_frames` reduces to `timestamp >= 0` before any
selection. -/
theorem first_scoring_frame_selected (src : List (Frame × ℚ)) (wr hr : ℚ)
    (pos : Corner) (thr mi : ℚ) (k : ℕ) (hk1 : 1 ≤ k) (hk : k < src.length)
    (hts : 0 ≤ (src.getD k (defFrame, 0)).2)
    (hsc : thr < scoreAt src (maskOf src wr hr pos) k)
    (hfirst : ∀ j, 1 ≤ j → j < k → scoreAt src (maskOf src wr hr pos) j ≤ thr) :
    (extract_frames src wr hr pos thr mi).head? =
      some (0, (src.getD k (defFrame, 0)).2) := by
  cases src with
  | nil => simp at hk
  | cons x L =>
      obtain ⟨f0, t0⟩ := x
      have hscore_eq : ∀ j,
          scoreAt ((f0, t0) :: L) (maskOf ((f0, t0) :: L) wr hr pos) (j + 1) =
            chainScore (create_speaker_mask f0.h f0.w wr hr pos) f0 L j := by
        intro j
        unfold scoreAt chainScore maskOf
        cases j with
        | zero => simp
        | succ j' => simp [List.getD_cons_succ]
      obtain ⟨k', rfl⟩ : ∃ k', k = k' + 1 := ⟨k - 1, by omega⟩
      unfold extract_frames
      dsimp only
      rw [List.foldl_cons]
      have hstep : processFrame (create_speaker_mask f0.h f0.w wr hr pos) thr
          (mi * 1000) ⟨none, -(mi * 1000), []⟩ (f0, t0) =
          ⟨some f0, -(mi * 1000), []⟩ := by
        unfold processFrame
        rfl
      rw [hstep]
      have hk' : k' < L.length := by simpa using hk
      obtain ⟨t, ht⟩ := first_qualifying_from_state
        (create_speaker_mask f0.h f0.w wr hr pos) thr (mi * 1000) L f0 k' hk'
        (by simpa [List.getD_cons_succ] using hts)
        (by rw [← hscore_eq k']; exact hsc)
        (by intro j hj
            rw [← hscore_eq j]
            exact hfirst (j + 1) (by omega) (by omega))
      rw [ht]
      simp [List.getD_cons_succ]

/-- C7 witness: on a concrete two-frame source whose second frame scores
`100 > 1` at timestamp `1000`, the first selected slide is that frame. -/
theorem first_scoring_frame_selected_witness :
    (1 ≤ 1) ∧
    (1 < ([(frame00, 0), (frame100, 1000)] : List (Frame × ℚ)).length) ∧
    (0 ≤ (([(frame00, 0), (frame100, 1000)] : List (Frame × ℚ)).getD 1
      (defFrame, 0)).2) ∧
    ((1 : ℚ) < scoreAt [(frame00, 0), (frame100, 1000)]
      (maskOf [(frame00, 0), (frame100, 1000)] (1/2) (1/2) Corner.topLeft) 1) ∧
    (extract_frames [(frame00, 0), (frame100, 1000)] (1/2) (1/2)
        Corner.topLeft 1 2).head? =
      some (0, (([(frame00, 0), (frame100, 1000)] : List (Frame × ℚ)).getD 1
        (defFrame, 0)).2) :=
  ⟨le_rfl, by norm_num, by norm_num,
    by norm_num [scoreAt, maskOf, meanDiff, mulMask, sumAbsDiff, maskSum,
      create_speaker_mask, speakerRect, npIndex, pyInt, frame00, frame100,
      Finset.sum_range_succ, List.getD_cons_succ, List.getD_cons_zero],
    first_scoring_frame_selected [(frame00, 0), (frame100, 1000)] (1/2) (1/2)
      Corner.topLeft 1 2 1 le_rfl (by norm_num) (by norm_num)
      (by norm_num [scoreAt, maskOf, meanDiff, mulMask, sumAbsDiff, maskSum,
        create_speaker_mask, speakerRect, npIndex, pyInt, frame00, frame100,
        Finset.sum_range_succ, List.getD_cons_succ, List.getD_cons_zero])
      (by intro j hj1 hj2
          exact absurd hj2 (by omega))⟩

/-! ## C4 -/

/-- C4 (counterexample): for `height = width = 2`, `widthRatio = 0`,
`heightRatio = 1` and corner `top-right`, the claim predicts
`floor(2*1) * floor(2*0) = 0` zero cells, but the slice `mask[0:2, -0:]`
is `mask[0:2, 0:]` — `-0` does not anchor at the right edge — so all `4`
cells are zeroed. -/
theorem zero_width_right_mask_not_empty :
    zeroCount (create_speaker_mask 2 2 0 1 Corner.topRight) = 4 ∧
    (pyInt ((2 : ℚ) * 1)).toNat * (pyInt ((2 : ℚ) * 0)).toNat = 0 := by
  constructor
  · have hc : ∀ p ∈ (Finset.range 2 ×ˢ Finset.range 2),
        (create_speaker_mask 2 2 0 1 Corner.topRight).cell p.1 p.2 = 0 := by
      intro p hp
      simp only [Finset.mem_product, Finset.mem_range] at hp
      obtain ⟨hi, hj⟩ := hp
      simp only [create_speaker_mask, speakerRect]
      norm_num [pyInt, npIndex]
      omega
    unfold zeroCount
    rw [create_h, create_w, Finset.filter_true_of_mem hc]
    decide
  · norm_num [pyInt]

lemma create_cell (h w : ℕ) (wr hr : ℚ) (pos : Corner) (i j : ℕ) :
    (create_speaker_mask h w wr hr pos).cell i j =
      if (speakerRect h w (pyInt ((h : ℚ) * hr)) (pyInt ((w : ℚ) * wr)) pos).1.1 ≤ i ∧
          i < (speakerRect h w (pyInt ((h : ℚ) * hr)) (pyInt ((w : ℚ) * wr)) pos).1.2 ∧
          (speakerRect h w (pyInt ((h : ℚ) * hr)) (pyInt ((w : ℚ) * wr)) pos).2.1 ≤ j ∧
          j < (speakerRect h w (pyInt ((h : ℚ) * hr)) (pyInt ((w : ℚ) * wr)) pos).2.2
      then 0 else 1 := rfl

/-- Counting the zero cells of a mask whose zero region is exactly the
rectangle `[r0, r1) × [c0, c1)` inside the `h × w` grid. -/
lemma zeroCount_rect (hh ww : ℕ) (m : Mask) (r0 r1 c0 c1 : ℕ)
    (hmh : m.h = hh) (hmw : m.w = ww) (hr1 : r1 ≤ hh) (hc1 : c1 ≤ ww)
    (hcell : ∀ i j, m.cell i j = 0 ↔ (r0 ≤ i ∧ i < r1 ∧ c0 ≤ j ∧ j < c1)) :
    zeroCount m = (r1 - r0) * (c1 - c0) := by
  unfold zeroCount
  rw [hmh, hmw]
  have hset : ((Finset.range hh ×ˢ Finset.range ww).filter
      fun p => m.cell p.1 p.2 = 0) = Finset.Ico r0 r1 ×ˢ Finset.Ico c0 c1 := by
    ext p
    simp only [Finset.mem_filter, Finset.mem_product, Finset.mem_range,
      Finset.mem_Ico, hcell]
    omega
  rw [hset, Finset.card_product, Nat.card_Ico, Nat.card_Ico]

/-- Resolution of the slice endpoints: under in-range ratios, and with a
positive rectangle dimension wherever a `right`/`bottom` corner anchors a
slice with a negative index, the zero region is a rectangle of exactly
`sh × sw` cells at the named corner. -/
lemma mask_rect_resolved (h w : ℕ) (sh sw : ℤ) (h0sh : 0 ≤ sh) (hshle : sh ≤ h)
    (h0sw : 0 ≤ sw) (hswle : sw ≤ w) (pos : Corner)
    (hright : (pos = Corner.topRight ∨ pos = Corner.bottomRight) → 0 < sw)
    (hbottom : (pos = Corner.bottomLeft ∨ pos = Corner.bottomRight) → 0 < sh) :
    ∃ r0 r1 c0 c1 : ℕ,
      speakerRect h w sh sw pos = ((r0, r1), (c0, c1)) ∧
      r1 ≤ h ∧ c1 ≤ w ∧
      r1 - r0 = sh.toNat ∧ c1 - c0 = sw.toNat ∧
      ∀ i j, i < h → j < w →
        ((r0 ≤ i ∧ i < r1 ∧ c0 ≤ j ∧ j < c1) ↔
          cornerRect h w sh.toNat sw.toNat pos i j) := by
  cases pos with
  | topLeft =>
      refine ⟨0, sh.toNat, 0, sw.toNat, ?_, by omega, by omega, by omega, by omega, ?_⟩
      · unfold speakerRect
        rw [npIndex_of_bounds h sh h0sh hshle, npIndex_of_bounds w sw h0sw hswle]
      · intro i j hi hj
        simp only [cornerRect]
        omega
  | topRight =>
      have hswpos : 0 < sw := hright (Or.inl rfl)
      refine ⟨0, sh.toNat, w - sw.toNat, w, ?_, by omega, by omega, by omega,
        by omega, ?_⟩
      · unfold speakerRect
        rw [npIndex_of_bounds h sh h0sh hshle, npIndex_neg_of_bounds w sw hswpos hswle]
      · intro i j hi hj
        simp only [cornerRect]
        omega
  | bottomLeft =>
      have hshpos : 0 < sh := hbottom (Or.inl rfl)
      refine ⟨h - sh.toNat, h, 0, sw.toNat, ?_, by omega, by omega, by omega,
        by omega, ?_⟩
      · unfold speakerRect
        rw [npIndex_neg_of_bounds h sh hshpos hshle, npIndex_of_bounds w sw h0sw hswle]
      · intro i j hi hj
        simp only [cornerRect]
        omega
  | bottomRight =>
      have hswpos : 0 < sw := hright (Or.inr rfl)
      have hshpos : 0 < sh := hbottom (Or.inr rfl)
      refine ⟨h - sh.toNat, h, w - sw.toNat, w, ?_, by omega, by omega, by omega,
        by omega, ?_⟩
      · unfold speakerRect
        rw [npIndex_neg_of_bounds h sh hshpos hshle,
          npIndex_neg_of_bounds w sw hswpos hswle]
      · intro i j hi hj
        simp only [cornerRect]
        omega

/-- C4 (amended): for ratios in `[0, 1]`, and provided the rectangle's
width is positive when the corner is on the right and its height is
positive when the corner is on the bottom (otherwise the `-0` slice wraps
to the full axis), the mask has exactly
`floor(height*heightRatio) * floor(width*widthRatio)` zero cells, which
are precisely the rectangle anchored at the named corner, and every other
cell is `1`. -/
theorem mask_zero_rectangle (h w : ℕ) (wr hr : ℚ) (pos : Corner)
    (hwr0 : 0 ≤ wr) (hwr1 : wr ≤ 1) (hhr0 : 0 ≤ hr) (hhr1 : hr ≤ 1)
    (hright : (pos = Corner.topRight ∨ pos = Corner.bottomRight) →
      0 < pyInt ((w : ℚ) * wr))
    (hbottom : (pos = Corner.bottomLeft ∨ pos = Corner.bottomRight) →
      0 < pyInt ((h : ℚ) * hr)) :
    zeroCount (create_speaker_mask h w wr hr pos) =
      (pyInt ((h : ℚ) * hr)).toNat * (pyInt ((w : ℚ) * wr)).toNat ∧
    ∀ i j, i < h → j < w →
      ((create_speaker_mask h w wr hr pos).cell i j = 0 ↔
        cornerRect h w (pyInt ((h : ℚ) * hr)).toNat
          (pyInt ((w : ℚ) * wr)).toNat pos i j) ∧
      ((create_speaker_mask h w wr hr pos).cell i j ≠ 0 →
        (create_speaker_mask h w wr hr pos).cell i j = 1) := by
  obtain ⟨r0, r1, c0, c1, hrect, hr1h, hc1w, hrr, hcc, hiff⟩ :=
    mask_rect_resolved h w (pyInt ((h : ℚ) * hr)) (pyInt ((w : ℚ) * wr))
      (pyInt_mul_ratio_nonneg h hhr0) (pyInt_mul_ratio_le h hhr0 hhr1)
      (pyInt_mul_ratio_nonneg w hwr0) (pyInt_mul_ratio_le w hwr0 hwr1)
      pos hright hbottom
  have hcell : ∀ i j, (create_speaker_mask h w wr hr pos).cell i j = 0 ↔
      (r0 ≤ i ∧ i < r1 ∧ c0 ≤ j ∧ j < c1) := by
    intro i j
    rw [create_cell, hrect]
    dsimp only
    constructor
    · intro h0
      by_contra hc
      rw [if_neg hc] at h0
      exact one_ne_zero h0
    · intro hc
      rw [if_pos hc]
  constructor
  · rw [zeroCount_rect h w _ r0 r1 c0 c1 rfl rfl hr1h hc1w hcell, hrr, hcc]
  · intro i j hi hj
    refine ⟨?_, ?_⟩
    · rw [hcell i j]
      exact hiff i j hi hj
    · intro hne
      rcases cell_zero_or_one h w wr hr pos i j with h0 | h1
      · exact absurd h0 hne
      · exact h1

/-- C4 witness: a `4 × 4` frame with both ratios `1/2` and corner
`top-right` has exactly `2 * 2 = 4` zero cells forming the top-right
rectangle. -/
theorem mask_zero_rectangle_witness :
    (0 ≤ (1/2 : ℚ)) ∧ ((1/2 : ℚ) ≤ 1) ∧
    ((Corner.topRight = Corner.topRight ∨ Corner.topRight = Corner.bottomRight) →
      0 < pyInt ((4 : ℚ) * (1/2))) ∧
    ((Corner.topRight = Corner.bottomLeft ∨ Corner.topRight = Corner.bottomRight) →
      0 < pyInt ((4 : ℚ) * (1/2))) ∧
    (zeroCount (create_speaker_mask 4 4 (1/2) (1/2) Corner.topRight) =
      (pyInt ((4 : ℚ) * (1/2))).toNat * (pyInt ((4 : ℚ) * (1/2))).toNat ∧
    ∀ i j, i < 4 → j < 4 →
      ((create_speaker_mask 4 4 (1/2) (1/2) Corner.topRight).cell i j = 0 ↔
        cornerRect 4 4 (pyInt ((4 : ℚ) * (1/2))).toNat
          (pyInt ((4 : ℚ) * (1/2))).toNat Corner.topRight i j) ∧
      ((create_speaker_mask 4 4 (1/2) (1/2) Corner.topRight).cell i j ≠ 0 →
        (create_speaker_mask 4 4 (1/2) (1/2) Corner.topRight).cell i j = 1)) :=
  ⟨by norm_num, by norm_num,
    fun _ => by norm_num [pyInt],
    fun _ => by norm_num [pyInt],
    mask_zero_rectangle 4 4 (1/2) (1/2) Corner.topRight (by norm_num) (by norm_num)
      (by norm_num) (by norm_num)
      (fun _ => by norm_num [pyInt]) (fun _ => by norm_num [pyInt])⟩
